import Mathlib

/-
Verification of the availability-search and multi-service booking core of a
voice-agent calendar service (src/routes/calendar.ts and src/ghl.ts).

The embedding is shallow: each JS function relevant to the claims is
translated into an executable Lean definition.  Times are modelled as
natural-number epoch milliseconds on the calendar's local-timezone scale
(the scale on which the source performs all of its comparisons); ISO slot
strings are modelled by the data the source extracts from them (epoch
milliseconds, and the hour/minute pair matched by the regex on the string).
Remote API responses are passed in as explicit data.
-/

namespace GhlCal

/-! ## Time-of-day classification

The source has three distinct time-preference classifiers:
a) isSlotMorning / isSlotAfternoon (check-availability route, calendar.ts
   lines 514-526), operating on the regex match of the ISO string;
b) the inline filterByTimePreference of the free-slots route (lines 264-275);
c) matchesTimePreference inside findPackageDayAvailability (lines 2967-2976),
   operating on the local hour obtained from a timezone conversion.
A slot's hour/minute pair is modelled as `Option (Nat × Nat)`: `none` when
the regex does not match, `some (h, m)` otherwise. -/

/-- Result of matching the time-of-day portion of an ISO slot string. -/
abbrev Stamp := Option (Nat × Nat)

/-- isSlotMorning (calendar.ts 514-518): regex failure is classified false,
otherwise the slot is morning iff its hour is below 12. -/
def isSlotMorning : Stamp → Bool
  | none => false
  | some (h, _) => h < 12

/-- isSlotAfternoon (calendar.ts 520-526): regex failure is classified false,
otherwise afternoon iff hour above 12, or hour 12 with minute at least 15. -/
def isSlotAfternoon : Stamp → Bool
  | none => false
  | some (h, m) => decide (12 < h) || (h == 12 && decide (15 ≤ m))

/-- getSlotMinutes (calendar.ts 528-532): minutes since midnight, 0 when the
regex does not match. -/
def getSlotMinutes : Stamp → Nat
  | none => 0
  | some (h, m) => h * 60 + m

/-- Predicate of the filter inside the free-slots route's
filterByTimePreference (calendar.ts 267-274): a slot whose regex does not
match is kept; morning keeps hour below 12, afternoon keeps hour 12 and up. -/
def keepByFreeSlotsPref (preference : String) (s : Stamp) : Bool :=
  match s with
  | none => true
  | some (h, _) =>
    if preference == "morning" then decide (h < 12)
    else if preference == "afternoon" then decide (12 ≤ h)
    else true

/-- filterByTimePreference (calendar.ts 265-275): the identity for
preference "any", otherwise the filter by keepByFreeSlotsPref. -/
def filterByTimePreference (slots : List Stamp) (preference : String) : List Stamp :=
  if preference == "any" then slots
  else slots.filter (keepByFreeSlotsPref preference)

/-- matchesTimePreference inside findPackageDayAvailability
(calendar.ts 2968-2976), on the slot's local hour in the location timezone:
morning rejects hour 12 and up, afternoon rejects hour below 12, any other
preference accepts everything. -/
def matchesTimePreference (timePreference : String) (localHour : Nat) : Bool :=
  if timePreference == "morning" && decide (12 ≤ localHour) then false
  else if timePreference == "afternoon" && decide (localHour < 12) then false
  else true

/-! ## Natural-language date resolution

Both parsers (parseDateRequest, calendar.ts 1336-1426, and
parseRequestedDate, calendar.ts 2684-2727) lowercase and pattern-match the
input phrase; the phrases shared by both are modelled by the `DatePhrase`
inductive.  A calendar date is a day number (days since the Unix epoch;
day 0, 1970-01-01, was a Thursday, so the JS getDay of day `d` is
`(d + 4) % 7`).  parseDateRequest returns an equality predicate on date
keys; its unique accepted date is the resolved date, which is what is
modelled here. -/

/-- Date phrases recognized by both parsers: an exact ISO date, today,
tomorrow, a bare weekday name, and a next-weekday phrase. -/
inductive DatePhrase where
  | isoDate (d : Nat)
  | today
  | tomorrow
  | weekday (w : Fin 7)
  | nextWeekday (w : Fin 7)
deriving Repr, DecidableEq

/-- JS Date.getDay of an epoch day number (0 = Sunday ... 6 = Saturday). -/
def dayOfWeek (d : Nat) : Nat := (d + 4) % 7

/-- The daysAhead computation shared by both parsers for weekday phrases:
target minus current day-of-week, bumped by 7 when the difference is not
positive, giving a value in 1..7 (7 exactly when the weekday is today's). -/
def daysAheadNext (target dow : Nat) : Nat :=
  if dow < target then target - dow else target + 7 - dow

/-- parseDateRequest (check-availability route, calendar.ts 1336-1426),
restricted to the phrases shared with parseRequestedDate, as the resolved
date.  For a next-weekday phrase the extra week is added only when the
first adjustment gave fewer than 7 days (calendar.ts 1381-1384). -/
def parseDateRequestResolve (ref : Nat) : DatePhrase → Nat
  | .isoDate d => d
  | .today => ref
  | .tomorrow => ref + 1
  | .weekday w => ref + daysAheadNext w.val (dayOfWeek ref)
  | .nextWeekday w =>
    let k := daysAheadNext w.val (dayOfWeek ref)
    ref + (if k < 7 then k + 7 else k)

/-- parseRequestedDate (package endpoints, calendar.ts 2684-2727), on the
same shared phrases.  For a next-weekday phrase the extra week is added
unconditionally (calendar.ts 2719). -/
def parseRequestedDateResolve (ref : Nat) : DatePhrase → Nat
  | .isoDate d => d
  | .today => ref
  | .tomorrow => ref + 1
  | .weekday w => ref + daysAheadNext w.val (dayOfWeek ref)
  | .nextWeekday w => ref + (daysAheadNext w.val (dayOfWeek ref) + 7)

/-- Modelled from the spec: the next occurrence of weekday `w` strictly
after day `ref` (today excluded), as the spec defines for bare weekday
phrases. -/
def nextOccurrenceSpec (ref : Nat) (w : Fin 7) : Nat :=
  ref + daysAheadNext w.val (dayOfWeek ref)

/-- Modelled from the spec: the resolution the spec prescribes for a
next-weekday phrase, namely the same weekday one week after its next
occurrence (skipping the nearer occurrence). -/
def nextWeekdaySpec (ref : Nat) (w : Fin 7) : Nat :=
  nextOccurrenceSpec ref w + 7

/-! ## Schedule cache fallback behavior (C8)

getCalendarSchedule (calendar.ts 95-152) fetches a reference week of slots
and derives the open weekdays; its fetch can fail.  The outcome of a call
is modelled as `Except String CalendarSchedule`.  Each route that calls it
handles the failure differently. -/

/-- Open-weekday information derived by getCalendarSchedule. -/
structure CalendarSchedule where
  openDays : List Nat
deriving Repr, DecidableEq

/-- The hardcoded Monday-through-Friday default of the free-slots route
(calendar.ts 254). -/
def WEEKDAYS_DEFAULT : List Nat := [1, 2, 3, 4, 5]

/-- Open-day set used by the free-slots route (calendar.ts 255-262): the
schedule's open days, or the Mon-Fri default when the schedule fetch threw. -/
def freeSlotsOpenDays (sched : Except String CalendarSchedule) : List Nat :=
  match sched with
  | .ok s => s.openDays
  | .error _ => WEEKDAYS_DEFAULT

/-- Open-day outcome of the business-hours route (calendar.ts 398-457): the
getCalendarSchedule call is not guarded, so a failure escapes to the route's
top-level handler and is returned to the client as an error response. -/
def businessHoursOpenDays (sched : Except String CalendarSchedule) :
    Except String (List Nat) :=
  match sched with
  | .ok s => .ok s.openDays
  | .error e => .error e

/-- Open-day outcome of the location-info route (calendar.ts 781-815): the
business-hours map starts as all-Closed and is only overwritten on success,
so a schedule failure leaves every day closed (the empty open-day set). -/
def locationInfoOpenDays (sched : Except String CalendarSchedule) : List Nat :=
  match sched with
  | .ok s => s.openDays
  | .error _ => []

/-! ## Remote-call authentication retry (C9)

The axios response interceptor installed by GHL.requests (ghl.ts 102-116):
a successful response passes through; a 401 response on a request not yet
flagged as retried forces a credential refresh and re-sends the request
exactly once; every other failure, and any failure of the re-sent request
(whose flag is now set), is rejected to the caller.  The remote's behavior
is modelled by the response to the first attempt and the response the
retry would get. -/

/-- Response of one remote API attempt. -/
inductive ApiResponse (α : Type) where
  | ok (data : α)
  | err (status : Nat) (msg : String)
deriving Repr, DecidableEq

/-- Observable outcome of a request through the interceptor: the final
result, the number of requests actually sent, and the number of forced
credential refreshes. -/
structure RetryTrace (α : Type) where
  result : ApiResponse α
  attempts : Nat
  refreshes : Nat
deriving Repr, DecidableEq

/-- The 401-retry interceptor of GHL.requests (ghl.ts 102-116).  `first` is
the response to the original request, `second` the response the retried
request would receive.  A 401 first response triggers one refresh plus one
retry whose response is final either way, because the retry flag is set. -/
def requestWith401Retry {α : Type} (first second : ApiResponse α) : RetryTrace α :=
  match first with
  | .ok d => ⟨.ok d, 1, 0⟩
  | .err status m =>
    if status == 401 then ⟨second, 2, 1⟩ else ⟨.err status m, 1, 0⟩

/-! ## Check-availability slot pipeline (C3, C6, C7)

The check-availability route (calendar.ts 915-1561).  A slot carries the
data the route extracts from the remote ISO string and response entry. -/

/-- One free slot offered by a calendar, as used by check-availability:
epoch milliseconds of its start (local scale), the hour/minute stamp the
formatting and preference helpers match out of the ISO string, and the
staff/calendar attribution attached at fetch time. -/
structure Slot where
  ms : Nat
  stamp : Stamp
  staffName : Option String := none
  staffId : Option String := none
  calId : String := ""
  calName : Option String := none
deriving Repr, DecidableEq

/-- Availability map for one calendar or for the merged result: date key
(day number) paired with that day's slot list. -/
abbrev Availability := List (Nat × List Slot)

/-- Day lookup in an availability map (JS object indexing). -/
def lookupDay (m : Availability) (d : Nat) : List Slot :=
  match m.find? (fun p => p.1 == d) with
  | some p => p.2
  | none => []

/-- Ordered insertion step of the key-based sort. -/
def insertByKey {α : Type} (key : α → Nat) (a : α) : List α → List α
  | [] => [a]
  | b :: l => if key a ≤ key b then a :: b :: l else b :: insertByKey key a l

/-- Sorting by a numeric key, modelling the JS Array.sort calls with
numeric or chronological comparators (calendar.ts 1308, 1458, 1484). -/
def sortByKey {α : Type} (key : α → Nat) : List α → List α
  | [] => []
  | a :: l => insertByKey key a (sortByKey key l)

/-- The 15-minute voice-agent buffer (calendar.ts 1212). -/
def BUFFER_MS : Nat := 15 * 60 * 1000

/-- minSlotTimeMs (calendar.ts 1212-1224): now plus the 15-minute buffer,
raised to start_after when a multi-service chain supplies one. -/
def minSlotTime (localNowMs : Nat) (startAfter : Option Nat) : Nat :=
  match startAfter with
  | none => localNowMs + BUFFER_MS
  | some s => max (localNowMs + BUFFER_MS) s

/-- fetchSlotsForCalendar (calendar.ts 1232-1285): per date, keep only the
slots starting at or after minSlotTimeMs, and drop dates left empty. -/
def fetchSlotsForCalendar (minSlotTimeMs : Nat) (raw : Availability) : Availability :=
  (raw.map (fun p => (p.1, p.2.filter (fun s => decide (minSlotTimeMs ≤ s.ms))))).filter
    (fun p => !p.2.isEmpty)

/-- fetchAllCalendarsForDays merge step (calendar.ts 1288-1312): union of
the per-calendar date keys, each day holding the concatenation of every
calendar's slots for it, sorted by time. -/
def mergeAvailability (maps : List Availability) : Availability :=
  let keys := ((maps.map (fun m => m.map Prod.fst)).flatten).dedup
  keys.map (fun d =>
    (d, sortByKey (fun s => s.ms) ((maps.map (fun m => lookupDay m d)).flatten)))

/-- Result entry of check-availability: the date key and the chosen slot
(the route also derives presentation fields from these two). -/
structure ResultSlot where
  date : Nat
  slot : Slot
deriving Repr, DecidableEq

/-- Optional time-preference filter application (calendar.ts 1472-1474 and
1509-1511): identity when no preference function was selected. -/
def applyTimeFilter (tf : Option (Slot → Bool)) (slots : List Slot) : List Slot :=
  match tf with
  | none => slots
  | some f => slots.filter f

/-- Absolute difference of two minute values (Math.abs in calendar.ts 1478). -/
def absDiff (a b : Nat) : Nat := max a b - min a b

/-- Proximity of a result slot to the requested time, in minutes. -/
def proximityKey (target : Nat) (r : ResultSlot) : Nat :=
  absDiff (getSlotMinutes r.slot.stamp) target

/-- Default 1-per-day collection loop (calendar.ts 1499-1529): walk the
filtered dates in order, take the first preference-matching slot of each
date that has one, and stop once the budget of days is reached. -/
def onePerDay (tf : Option (Slot → Bool)) (avail : Availability) :
    List Nat → Nat → List ResultSlot
  | [], _ => []
  | _ :: _, 0 => []
  | d :: ds, budget + 1 =>
    match applyTimeFilter tf (lookupDay avail d) with
    | [] => onePerDay tf avail ds (budget + 1)
    | s :: _ => ⟨d, s⟩ :: onePerDay tf avail ds budget

/-- Date keys of the availability map, sorted ascending and narrowed by the
parsed requested_date predicate when one is present (calendar.ts 1458-1462). -/
def collectDates (dateFilter : Option (Nat → Bool)) (avail : Availability) : List Nat :=
  match dateFilter with
  | none => sortByKey (fun d => d) (avail.map Prod.fst)
  | some df => (sortByKey (fun d => d) (avail.map Prod.fst)).filter df

/-- All preference-matching slots over the filtered dates, paired with
their date (calendar.ts 1466-1481). -/
def allMatchingSlots (tf : Option (Slot → Bool)) (avail : Availability)
    (dates : List Nat) : List ResultSlot :=
  (dates.map (fun d =>
    (applyTimeFilter tf (lookupDay avail d)).map (fun s => ResultSlot.mk d s))).flatten

/-- collectSlots (calendar.ts 1457-1530).  `dateFilter` is the parsed
requested_date predicate, `tf` the selected time-preference filter,
`targetMins` the parsed requested_time.  With a target time, all matching
slots are ranked by proximity to it and the closest maxSlots returned;
otherwise one slot per date, up to maxSlots dates.  maxSlots is 5 with a
target time, 3 without (calendar.ts 1442). -/
def collectSlots (dateFilter : Option (Nat → Bool)) (tf : Option (Slot → Bool))
    (targetMins : Option Nat) (avail : Availability) : List ResultSlot :=
  match targetMins with
  | some t =>
    (sortByKey (proximityKey t)
      (allMatchingSlots tf avail (collectDates dateFilter avail))).take 5
  | none => onePerDay tf avail (collectDates dateFilter avail) 3

/-- One window of the search: fetch every calendar's raw data for the
window, filter out near-past slots, merge, and collect. -/
def runWindow (dateFilter : Option (Nat → Bool)) (tf : Option (Slot → Bool))
    (targetMins : Option Nat) (minSlotTimeMs : Nat)
    (raws : List Availability) : List ResultSlot :=
  collectSlots dateFilter tf targetMins
    (mergeAvailability (raws.map (fetchSlotsForCalendar minSlotTimeMs)))

/-- The check-availability search with auto-extension (calendar.ts
1314-1315 and 1532-1545): run the pipeline on the 7-day window; if it
produced nothing, re-run the whole pipeline on 14 days, and then on 30;
`raw w` is the remote free-slots data of every searched calendar for a
window of `w` days ahead. -/
def checkAvailabilitySearch (dateFilter : Option (Nat → Bool))
    (tf : Option (Slot → Bool)) (targetMins : Option Nat) (minSlotTimeMs : Nat)
    (raw : Nat → List Availability) : List ResultSlot :=
  let r7 := runWindow dateFilter tf targetMins minSlotTimeMs (raw 7)
  if r7.isEmpty then
    let r14 := runWindow dateFilter tf targetMins minSlotTimeMs (raw 14)
    if r14.isEmpty then runWindow dateFilter tf targetMins minSlotTimeMs (raw 30)
    else r14
  else r7

/-! ## Package day-fit planner (C1)

findPackageDayAvailability (calendar.ts 2862-3071).  The directory store
record of a calendar and the prefetched slot data are passed in explicitly.
JS falsy-or defaults (value || default) are modelled with 0 standing for a
missing, null or zero field. -/

/-- Directory-store record of a synced calendar, with 0 encoding a falsy
slot_duration or slot_buffer value. -/
structure SyncedCalendar where
  slotDuration : Nat
  slotBuffer : Nat
deriving Repr, DecidableEq

/-- JS falsy-or on a numeric field: the default when the value is 0
(covering null, undefined and literal 0). -/
def jsOr (n d : Nat) : Nat := if n == 0 then d else n

/-- getCalendarTiming (calendar.ts 2979-2985): slot duration (default 60
minutes) and buffer (default 15 minutes) of a calendar, in milliseconds. -/
def getCalendarTiming (db : String → Option SyncedCalendar) (calendarId : String) :
    Nat × Nat :=
  match db calendarId with
  | some c => (jsOr c.slotDuration 60 * 60 * 1000, jsOr c.slotBuffer 15 * 60 * 1000)
  | none => (60 * 60 * 1000, 15 * 60 * 1000)

/-- A slot as seen by the planner: epoch milliseconds and the local hour in
the location's timezone (calendar.ts 3027 and 2969-2971). -/
structure PlannerSlot where
  ms : Nat
  localHour : Nat
deriving Repr, DecidableEq

/-- A candidate calendar for one service (calendar.ts 2897-2922). -/
structure ServiceCal where
  calId : String
  staffName : Option String := none
deriving Repr, DecidableEq

/-- One step of a package plan (calendar.ts 3006-3012 and 3038-3044). -/
structure PlannedStep where
  service : String
  startTime : Nat
  endTime : Nat
  calId : String
  staffName : Option String := none
deriving Repr, DecidableEq

/-- Inner slot scan (calendar.ts 3026-3051): the first slot of the day that
starts at or after the running minimum and matches the time preference. -/
def findSlotInCalendar (timePreference : String) (minStart : Nat)
    (slotsOfDay : List PlannerSlot) : Option PlannerSlot :=
  slotsOfDay.find? (fun s =>
    decide (minStart ≤ s.ms) && matchesTimePreference timePreference s.localHour)

/-- Calendar scan for one service on one date (calendar.ts 3022-3054): try
each candidate calendar in order; on the first hit build the planned step
and the next service's minimum start, namely this slot's end plus the
calendar's buffer. -/
def tryService (db : String → Option SyncedCalendar)
    (calSlots : String → Nat → List PlannerSlot) (timePreference : String)
    (dateKey : Nat) (service : String) (minStart : Nat) :
    List ServiceCal → Option (PlannedStep × Nat)
  | [] => none
  | c :: rest =>
    match findSlotInCalendar timePreference minStart (calSlots c.calId dateKey) with
    | some s =>
      let timing := getCalendarTiming db c.calId
      let endMs := s.ms + timing.1
      some (⟨service, s.ms, endMs, c.calId, c.staffName⟩, endMs + timing.2)
    | none => tryService db calSlots timePreference dateKey service minStart rest

/-- Day-fit scan over the ordered service list (calendar.ts 3017-3061),
threading the running minimum start time; the date succeeds only when every
service found a slot. -/
def tryDate (db : String → Option SyncedCalendar)
    (calSlots : String → Nat → List PlannerSlot)
    (serviceCals : String → List ServiceCal) (timePreference : String)
    (dateKey : Nat) : List String → Nat → Option (List PlannedStep)
  | [], _ => some []
  | service :: rest, minStart =>
    match tryService db calSlots timePreference dateKey service minStart
        (serviceCals service) with
    | none => none
    | some (step, nextMin) =>
      match tryDate db calSlots serviceCals timePreference dateKey rest nextMin with
      | none => none
      | some plan => some (step :: plan)

/-- findPackageDayAvailability date loop (calendar.ts 2999-3067): walk the
candidate dates in order, initialize the minimum start to the larger of
now-plus-buffer and the date's midnight (calendar.ts 3014), collect each
date whose full plan succeeds, and stop once maxResults dates are found. -/
def findPackageDay (db : String → Option SyncedCalendar)
    (calSlots : String → Nat → List PlannerSlot)
    (serviceCals : String → List ServiceCal) (timePreference : String)
    (services : List String) (nowPlusBufferMs : Nat) (dayStartMs : Nat → Nat) :
    List Nat → Nat → List (Nat × List PlannedStep)
  | [], _ => []
  | _ :: _, 0 => []
  | d :: ds, budget + 1 =>
    match tryDate db calSlots serviceCals timePreference d services
        (max nowPlusBufferMs (dayStartMs d)) with
    | some plan =>
      (d, plan) :: findPackageDay db calSlots serviceCals timePreference services
        nowPlusBufferMs dayStartMs ds budget
    | none =>
      findPackageDay db calSlots serviceCals timePreference services
        nowPlusBufferMs dayStartMs ds (budget + 1)

/-! ## Booking orchestrator (C2)

The sequential booking loop and outcome classification shared by the
book-package route (calendar.ts 2439-2540) and the package branch of the
book route (calendar.ts 1689-1768).  Each loop iteration calls
bookServiceAppointment for its planned step; the call's outcome (success
with appointment data, a returned failure, or a thrown error, the last two
being recorded identically) is supplied as data. -/

/-- Outcome of one bookServiceAppointment call. -/
inductive StepOutcome where
  | ok (appointmentId : Option String) (endTimeMs : Nat)
  | fail (err : String)
deriving Repr, DecidableEq

/-- Whether a step outcome is a success. -/
def isOkOutcome : StepOutcome → Bool
  | .ok _ _ => true
  | .fail _ => false

/-- Status of one appointment entry in the response. -/
inductive ApptStatus where
  | confirmed
  | failed
deriving Repr, DecidableEq, BEq

/-- One entry of the appointments array built by the booking loop. -/
structure ApptEntry where
  service : String
  status : ApptStatus
  err : Option String := none
  appointmentId : Option String := none
deriving Repr, DecidableEq

/-- The booking loop (calendar.ts 2439-2493): every planned step is
attempted in order regardless of earlier failures; a success appends a
confirmed entry and a failure appends a failed entry and clears the
all-successful flag. -/
def runBookingLoop : List (PlannedStep × StepOutcome) → List ApptEntry × Bool
  | [] => ([], true)
  | (s, o) :: rest =>
    let r := runBookingLoop rest
    match o with
    | .ok id _ => (⟨s.service, .confirmed, none, id⟩ :: r.1, r.2)
    | .fail e => (⟨s.service, .failed, some e, none⟩ :: r.1, false)

/-- The confirmed entries of the appointments array (calendar.ts 2496). -/
def confirmedEntries (l : List ApptEntry) : List ApptEntry :=
  l.filter (fun a => decide (a.status = ApptStatus.confirmed))

/-- Aggregate classification of a package booking. -/
inductive BookingAggregate where
  | fullSuccess
  | partialSuccess
  | totalFailure
deriving Repr, DecidableEq

/-- Response classification (calendar.ts 2498-2540): zero confirmed entries
is total failure; otherwise any failure makes it partial; otherwise full
success. -/
def classifyBooking (appointments : List ApptEntry) (allSuccessful : Bool) :
    BookingAggregate :=
  if (confirmedEntries appointments).length == 0 then .totalFailure
  else if !allSuccessful then .partialSuccess
  else .fullSuccess

/-- buildPackageConfirmation (calendar.ts 3205-3249): empty for an empty
appointment list, otherwise a sentence naming the package; the formatted
date, time list and price parts are passed in as the strings the source
computes for them. -/
def buildPackageConfirmation (packageName : String) (appointments : List ApptEntry)
    (dateStr timeList priceStr : String) : String :=
  if appointments.isEmpty then ""
  else "Your " ++ packageName ++ " is booked for " ++ dateStr ++ ". " ++
    timeList ++ "." ++ priceStr

/-! ## Raw-axios fetch paths and their 401 handling (C9)

Besides the GHL.requests interceptor, three call sites hit the remote
free-slots API with a raw axios request carrying the stored bearer token,
and each handles an authentication failure differently. -/

/-- Trace of a fetch whose catch block swallows the failure: the degraded
result, the number of requests sent, and the number of credential
refreshes. -/
structure SwallowTrace (α : Type) where
  result : α
  attempts : Nat
  refreshes : Nat
deriving Repr, DecidableEq

/-- The package-planner prefetch of one calendar's slots (calendar.ts
2939-2964): one raw axios request; any failure — a 401 included — is
caught, logged, and replaced by an empty slot map for that calendar, with
no credential refresh and no retry. -/
def plannerPrefetchFetch (resp : ApiResponse (List (Nat × List PlannerSlot))) :
    SwallowTrace (List (Nat × List PlannerSlot)) :=
  match resp with
  | .ok dateSlots => ⟨dateSlots, 1, 0⟩
  | .err _ _ => ⟨[], 1, 0⟩

/-- One window fetch inside findServiceAvailability (calendar.ts
2789-2851): one raw axios request; any failure — a 401 included — is
caught and logged, and the scan moves on as if the window held no slots,
with no credential refresh and no retry. -/
def findServiceAvailabilityFetch (resp : ApiResponse (List (Nat × List String))) :
    SwallowTrace (List (Nat × List String)) :=
  match resp with
  | .ok dateSlots => ⟨dateSlots, 1, 0⟩
  | .err _ _ => ⟨[], 1, 0⟩

/-- The auth handling of fetchSlotsForCalendar (calendar.ts 1249-1262
composed with GHL.requests, ghl.ts 77-118): the first request is raw
axios; a non-401 failure is re-thrown as-is; a 401 falls back to the
GHL.requests client, which refreshes proactively only when the stored
token is already marked expired and then sends the request through the
401-retry interceptor.  `second` is the response to the fallback request
and `third` the response its interceptor retry would receive. -/
def fetchSlotsAuthFallback {α : Type} (tokenExpired : Bool)
    (first second third : ApiResponse α) : RetryTrace α :=
  match first with
  | .ok d => ⟨.ok d, 1, 0⟩
  | .err status m =>
    if status == 401 then
      let proactive := if tokenExpired then 1 else 0
      let t := requestWith401Retry second third
      ⟨t.result, 1 + t.attempts, proactive + t.refreshes⟩
    else ⟨.err status m, 1, 0⟩

/-! ## Theorems -/

lemma daysAheadNext_spec (t d : Nat) (ht : t < 7) (hd : d < 7) :
    1 ≤ daysAheadNext t d ∧ daysAheadNext t d ≤ 7 ∧ (daysAheadNext t d = 7 ↔ t = d) := by
  unfold daysAheadNext
  split <;> omega

lemma dayOfWeek_lt (d : Nat) : dayOfWeek d < 7 :=
  Nat.mod_lt _ (by omega)

/-- Claim C4 counterexample: a slot at exactly 12:00 noon is not excluded
from the afternoon bucket in every time-preference code path — the
free-slots filter and the package planner both classify it as afternoon
(only check-availability's isSlotAfternoon excludes it). -/
theorem claimC4_counterexample :
    filterByTimePreference [some (12, 0)] "afternoon" = [some (12, 0)] ∧
    matchesTimePreference "afternoon" 12 = true ∧
    isSlotMorning (some (12, 0)) = false ∧
    isSlotAfternoon (some (12, 0)) = false := by
  decide

/-- Claim C4 (amended): in every path, morning means local hour below 12;
in check-availability, afternoon means hour above 12 or hour 12 with minute
at least 15, so a 12:00 slot is excluded from both buckets there; in the
free-slots route and the package day-fit planner, afternoon means hour 12
and up, so a 12:00 slot falls in the afternoon bucket of those paths. -/
theorem claimC4 : ∀ h m : Nat,
    (isSlotMorning (some (h, m)) = true ↔ h < 12) ∧
    (isSlotAfternoon (some (h, m)) = true ↔ (12 < h ∨ (h = 12 ∧ 15 ≤ m))) ∧
    (keepByFreeSlotsPref "morning" (some (h, m)) = true ↔ h < 12) ∧
    (keepByFreeSlotsPref "afternoon" (some (h, m)) = true ↔ 12 ≤ h) ∧
    (matchesTimePreference "morning" h = true ↔ h < 12) ∧
    (matchesTimePreference "afternoon" h = true ↔ 12 ≤ h) ∧
    isSlotMorning (some (12, 0)) = false ∧
    isSlotAfternoon (some (12, 0)) = false := by
  intro h m
  refine ⟨?_, ?_, ?_, ?_, ?_, ?_, by decide, by decide⟩ <;>
    simp [isSlotMorning, isSlotAfternoon, keepByFreeSlotsPref,
      matchesTimePreference, Nat.lt_iff_add_one_le]

/-- Claim C4 witness: the amended classification evaluated at the hour 13
slot, via the general theorem. -/
theorem claimC4_witness : isSlotAfternoon (some (13, 0)) = true :=
  ((claimC4 13 0).2.1).mpr (Or.inl (by omega))

/-- Claim C5 counterexample: on a Friday reference day (epoch day 1), the
check-availability parser resolves a next-Friday phrase to 7 days out — the
next occurrence itself — not to the weekday of the week after its next
occurrence (15 days relative to the epoch here), so the resolver does not
always skip the nearer occurrence. -/
theorem claimC5_counterexample :
    dayOfWeek 1 = 5 ∧
    parseDateRequestResolve 1 (DatePhrase.nextWeekday 5) = 8 ∧
    nextWeekdaySpec 1 5 = 15 ∧
    parseDateRequestResolve 1 (DatePhrase.nextWeekday 5) ≠ nextWeekdaySpec 1 5 := by
  decide

/-- Claim C5 (amended): parseRequestedDate always resolves a next-weekday
phrase to the weekday of the week after its next occurrence; parseDateRequest
does so exactly when the named weekday differs from the reference day's
weekday, and resolves to the next occurrence itself (7 days out) when they
coincide; in particular, on any Wednesday both parsers resolve next Friday
to nine days out. -/
theorem claimC5 : ∀ (ref : Nat) (w : Fin 7),
    parseRequestedDateResolve ref (DatePhrase.nextWeekday w) = nextWeekdaySpec ref w ∧
    (w.val ≠ dayOfWeek ref →
      parseDateRequestResolve ref (DatePhrase.nextWeekday w) = nextWeekdaySpec ref w) ∧
    (w.val = dayOfWeek ref →
      parseDateRequestResolve ref (DatePhrase.nextWeekday w) = nextOccurrenceSpec ref w) ∧
    (dayOfWeek ref = 3 →
      parseDateRequestResolve ref (DatePhrase.nextWeekday 5) = ref + 9 ∧
      parseRequestedDateResolve ref (DatePhrase.nextWeekday 5) = ref + 9) := by
  intro ref w
  obtain ⟨ha, hb, hc⟩ := daysAheadNext_spec w.val (dayOfWeek ref) w.isLt (dayOfWeek_lt ref)
  refine ⟨?_, ?_, ?_, ?_⟩
  · simp [parseRequestedDateResolve, nextWeekdaySpec, nextOccurrenceSpec]
    omega
  · intro hne
    have h7 : daysAheadNext w.val (dayOfWeek ref) ≠ 7 := fun h => hne (hc.mp h)
    simp only [parseDateRequestResolve, nextWeekdaySpec, nextOccurrenceSpec]
    rw [if_pos (by omega)]
    omega
  · intro heq
    have h7 : daysAheadNext w.val (dayOfWeek ref) = 7 := hc.mpr heq
    simp only [parseDateRequestResolve, nextOccurrenceSpec]
    rw [if_neg (by omega)]
  · intro h3
    have h2 : daysAheadNext (5 : Fin 7).val (dayOfWeek ref) = 2 := by
      rw [h3]; decide
    constructor
    · simp only [parseDateRequestResolve, h2]
      norm_num
    · simp only [parseRequestedDateResolve, h2]

/-- Claim C5 witness: the amended behavior evaluated on a concrete
Wednesday (epoch day 6) for the next-Friday phrase. -/
theorem claimC5_witness :
    dayOfWeek 6 = 3 ∧
    parseDateRequestResolve 6 (DatePhrase.nextWeekday 5) = 6 + 9 ∧
    parseRequestedDateResolve 6 (DatePhrase.nextWeekday 5) = 6 + 9 :=
  ⟨by decide, ((claimC5 6 5).2.2.2 (by decide)).1, ((claimC5 6 5).2.2.2 (by decide)).2⟩

/-- Claim C10 counterexample: the two parsers do not agree on every shared
phrase — on a Friday reference day (epoch day 1) a next-Friday phrase
resolves 7 days out under parseDateRequest but 14 days out under
parseRequestedDate. -/
theorem claimC10_counterexample :
    parseDateRequestResolve 1 (DatePhrase.nextWeekday 5) = 8 ∧
    parseRequestedDateResolve 1 (DatePhrase.nextWeekday 5) = 15 ∧
    parseDateRequestResolve 1 (DatePhrase.nextWeekday 5) ≠
      parseRequestedDateResolve 1 (DatePhrase.nextWeekday 5) := by
  decide

/-- Claim C10 (amended): the two parsers resolve every shared phrase to the
same date, except a next-weekday phrase naming the reference day's own
weekday, which parseDateRequest sends 7 days out and parseRequestedDate 14
days out. -/
theorem claimC10 : ∀ (ref : Nat) (p : DatePhrase),
    ((∀ w : Fin 7, p ≠ DatePhrase.nextWeekday w) →
      parseDateRequestResolve ref p = parseRequestedDateResolve ref p) ∧
    (∀ w : Fin 7, p = DatePhrase.nextWeekday w → w.val ≠ dayOfWeek ref →
      parseDateRequestResolve ref p = parseRequestedDateResolve ref p) ∧
    (∀ w : Fin 7, p = DatePhrase.nextWeekday w → w.val = dayOfWeek ref →
      parseDateRequestResolve ref p = ref + 7 ∧
      parseRequestedDateResolve ref p = ref + 14) := by
  intro ref p
  refine ⟨?_, ?_, ?_⟩
  · intro hnot
    cases p with
    | isoDate d => rfl
    | today => rfl
    | tomorrow => rfl
    | weekday w => rfl
    | nextWeekday w => exact absurd rfl (hnot w)
  · rintro w rfl hne
    obtain ⟨ha, hb, hc⟩ := daysAheadNext_spec w.val (dayOfWeek ref) w.isLt (dayOfWeek_lt ref)
    have h7 : daysAheadNext w.val (dayOfWeek ref) ≠ 7 := fun h => hne (hc.mp h)
    simp only [parseDateRequestResolve, parseRequestedDateResolve]
    rw [if_pos (by omega)]
  · rintro w rfl heq
    obtain ⟨ha, hb, hc⟩ := daysAheadNext_spec w.val (dayOfWeek ref) w.isLt (dayOfWeek_lt ref)
    have h7 : daysAheadNext w.val (dayOfWeek ref) = 7 := hc.mpr heq
    simp only [parseDateRequestResolve, parseRequestedDateResolve, h7]
    norm_num

/-- Claim C10 witness: agreement evaluated on the concrete phrase tomorrow
at epoch day 3. -/
theorem claimC10_witness :
    parseDateRequestResolve 3 DatePhrase.tomorrow =
      parseRequestedDateResolve 3 DatePhrase.tomorrow :=
  (claimC10 3 DatePhrase.tomorrow).1 (by intro w h; cases h)

/-- Claim C8 counterexample: the business-hours route does not degrade a
schedule-fetch failure to the Mon-Fri default — it propagates the error to
the client — so not every getCalendarSchedule caller degrades. -/
theorem claimC8_counterexample :
    businessHoursOpenDays (Except.error "schedule fetch failed") =
      Except.error "schedule fetch failed" ∧
    businessHoursOpenDays (Except.error "schedule fetch failed") ≠
      Except.ok WEEKDAYS_DEFAULT := by
  constructor
  · rfl
  · intro h
    cases h

/-- Claim C8 (amended): on a schedule-fetch failure, the free-slots route
degrades to the hardcoded Mon-Fri default, the business-hours route
propagates the error to the client, and the location-info route degrades to
an all-closed (empty) open-day set; on success all three use the fetched
open days. -/
theorem claimC8 : ∀ (e : String) (s : CalendarSchedule),
    freeSlotsOpenDays (Except.error e) = WEEKDAYS_DEFAULT ∧
    businessHoursOpenDays (Except.error e) = Except.error e ∧
    locationInfoOpenDays (Except.error e) = [] ∧
    freeSlotsOpenDays (Except.ok s) = s.openDays ∧
    businessHoursOpenDays (Except.ok s) = Except.ok s.openDays ∧
    locationInfoOpenDays (Except.ok s) = s.openDays := by
  intro e s
  exact ⟨rfl, rfl, rfl, rfl, rfl, rfl⟩

/-- Claim C9 counterexample: not every remote calendar-API call failing
with a 401 is retried exactly once after a forced refresh — the planner
prefetch and the findServiceAvailability fetch swallow a 401 with one
attempt, zero refreshes and a degraded empty result instead of a
propagated error, and the fetchSlotsForCalendar fallback path sends three
requests when the 401 persists, retrying the already-retried call again. -/
theorem claimC9_counterexample :
    (plannerPrefetchFetch (ApiResponse.err 401 "unauthorized")).attempts = 1 ∧
    (plannerPrefetchFetch (ApiResponse.err 401 "unauthorized")).refreshes = 0 ∧
    (plannerPrefetchFetch (ApiResponse.err 401 "unauthorized")).result = [] ∧
    (findServiceAvailabilityFetch (ApiResponse.err 401 "unauthorized")).attempts = 1 ∧
    (findServiceAvailabilityFetch (ApiResponse.err 401 "unauthorized")).refreshes = 0 ∧
    (fetchSlotsAuthFallback false (ApiResponse.err 401 "unauthorized" : ApiResponse Nat)
      (ApiResponse.err 401 "unauthorized") (ApiResponse.err 401 "unauthorized")).attempts = 3 ∧
    (fetchSlotsAuthFallback false (ApiResponse.err 401 "unauthorized" : ApiResponse Nat)
      (ApiResponse.err 401 "unauthorized") (ApiResponse.err 401 "unauthorized")).attempts ≠ 2 := by
  decide

/-- Claim C9 (amended): only calls sent through the GHL.requests client
get the retry-once behavior — its interceptor passes a success through
untouched, forces exactly one credential refresh and one retry on a 401
(the retry's response, success or failure, is final), and rejects a
non-401 failure with no retry.  The raw-axios fetches of the package
planner prefetch and of findServiceAvailability swallow any failure, a
401 included, with one attempt, no refresh, no retry and an empty-slots
result instead of a propagated error.  fetchSlotsForCalendar answers a
401 on its raw request by re-sending once through the GHL.requests
client (refreshing first only when the stored token is already expired),
so a persisting 401 there leads to a third attempt after the
interceptor's forced refresh, whose failure then propagates. -/
theorem claimC9 : ∀ (d : Nat) (s2 s3 : ApiResponse Nat) (st : Nat) (m m2 : String)
    (dateSlots : List (Nat × List PlannerSlot))
    (rawSlots : List (Nat × List String)) (expired : Bool),
    requestWith401Retry (ApiResponse.ok d) s2 = ⟨ApiResponse.ok d, 1, 0⟩ ∧
    requestWith401Retry (ApiResponse.err 401 m) s2 = ⟨s2, 2, 1⟩ ∧
    (st ≠ 401 →
      requestWith401Retry (ApiResponse.err st m) s2 = ⟨ApiResponse.err st m, 1, 0⟩) ∧
    plannerPrefetchFetch (ApiResponse.ok dateSlots) = ⟨dateSlots, 1, 0⟩ ∧
    plannerPrefetchFetch (ApiResponse.err st m) = ⟨[], 1, 0⟩ ∧
    findServiceAvailabilityFetch (ApiResponse.ok rawSlots) = ⟨rawSlots, 1, 0⟩ ∧
    findServiceAvailabilityFetch (ApiResponse.err st m) = ⟨[], 1, 0⟩ ∧
    fetchSlotsAuthFallback expired (ApiResponse.ok d) s2 s3 =
      ⟨ApiResponse.ok d, 1, 0⟩ ∧
    (st ≠ 401 → fetchSlotsAuthFallback expired (ApiResponse.err st m) s2 s3 =
      ⟨ApiResponse.err st m, 1, 0⟩) ∧
    fetchSlotsAuthFallback expired (ApiResponse.err 401 m) (ApiResponse.ok d) s3 =
      ⟨ApiResponse.ok d, 2, if expired then 1 else 0⟩ ∧
    fetchSlotsAuthFallback expired (ApiResponse.err 401 m) (ApiResponse.err 401 m2) s3 =
      ⟨s3, 3, (if expired then 1 else 0) + 1⟩ := by
  intro d s2 s3 st m m2 dateSlots rawSlots expired
  refine ⟨rfl, rfl, ?_, rfl, rfl, rfl, rfl, rfl, ?_, rfl, rfl⟩
  · intro hne
    have hbeq : (st == 401) = false := by
      simpa using hne
    simp [requestWith401Retry, hbeq]
  · intro hne
    have hbeq : (st == 401) = false := by
      simpa using hne
    simp [fetchSlotsAuthFallback, hbeq]

/-- Claim C9 witness: the amended behavior evaluated concretely — a 500
first failure through the interceptor is rejected with no retry. -/
theorem claimC9_witness :
    (500 ≠ 401) ∧
    requestWith401Retry (ApiResponse.err 500 "server error" : ApiResponse Nat)
      (ApiResponse.ok 7) = ⟨ApiResponse.err 500 "server error", 1, 0⟩ :=
  ⟨by decide,
    (claimC9 7 (ApiResponse.ok 7) (ApiResponse.ok 7) 500 "server error" "x" [] []
      false).2.2.1 (by decide)⟩

lemma runBookingLoop_spec (steps : List (PlannedStep × StepOutcome)) :
    (runBookingLoop steps).1.length = steps.length ∧
    (confirmedEntries (runBookingLoop steps).1).length =
      (steps.filter (fun p => isOkOutcome p.2)).length ∧
    (runBookingLoop steps).2 = steps.all (fun p => isOkOutcome p.2) := by
  induction steps with
  | nil => simp [runBookingLoop, confirmedEntries]
  | cons hd tl ih =>
    obtain ⟨s, o⟩ := hd
    obtain ⟨ih1, ih2, ih3⟩ := ih
    cases o with
    | ok id e =>
      refine ⟨by simpa [runBookingLoop] using ih1, ?_, ?_⟩
      · simpa [runBookingLoop, confirmedEntries, isOkOutcome, List.filter_cons]
          using ih2
      · simpa [runBookingLoop, isOkOutcome] using ih3
    | fail err =>
      refine ⟨by simpa [runBookingLoop] using ih1, ?_, ?_⟩
      · simpa [runBookingLoop, confirmedEntries, isOkOutcome, List.filter_cons]
          using ih2
      · simp [runBookingLoop, isOkOutcome]

/-- Claim C2: the booking loop attempts every step of the plan regardless
of earlier failures (one appointment entry per step); the confirmed-entry
count always equals the number of steps whose remote call succeeded; and
the aggregate is classified full success (with all entries confirmed) when
every step of a nonempty plan succeeded, partial when at least one step
succeeded and at least one failed, and total failure when none succeeded. -/
theorem claimC2 : ∀ (steps : List (PlannedStep × StepOutcome))
    (appts : List ApptEntry) (allOk : Bool),
    runBookingLoop steps = (appts, allOk) →
    appts.length = steps.length ∧
    (confirmedEntries appts).length =
      (steps.filter (fun p => isOkOutcome p.2)).length ∧
    (steps ≠ [] → (∀ p ∈ steps, isOkOutcome p.2 = true) →
      classifyBooking appts allOk = BookingAggregate.fullSuccess ∧
      (confirmedEntries appts).length = steps.length) ∧
    ((∃ p ∈ steps, isOkOutcome p.2 = true) → (∃ q ∈ steps, isOkOutcome q.2 = false) →
      classifyBooking appts allOk = BookingAggregate.partialSuccess) ∧
    ((∀ p ∈ steps, isOkOutcome p.2 = false) →
      classifyBooking appts allOk = BookingAggregate.totalFailure) := by
  intro steps appts allOk hrun
  obtain ⟨h1, h2, h3⟩ := runBookingLoop_spec steps
  rw [hrun] at h1 h2 h3
  simp only at h1 h2 h3
  refine ⟨h1, h2, ?_, ?_, ?_⟩
  · intro hne hall
    have hfil : steps.filter (fun p => isOkOutcome p.2) = steps :=
      List.filter_eq_self.mpr hall
    have hcount : (confirmedEntries appts).length = steps.length := by
      rw [h2, hfil]
    refine ⟨?_, hcount⟩
    have hlen : steps.length ≠ 0 := by
      simpa [List.length_eq_zero] using hne
    have hok : allOk = true := by
      rw [h3, List.all_eq_true]
      exact hall
    unfold classifyBooking
    rw [hcount, hok]
    rw [if_neg (by simpa using hlen)]
    simp
  · intro hok hfail
    obtain ⟨p, hp, hpo⟩ := hok
    obtain ⟨q, hq, hqo⟩ := hfail
    have hcount : 0 < (confirmedEntries appts).length := by
      rw [h2]
      have : p ∈ steps.filter (fun p => isOkOutcome p.2) :=
        List.mem_filter.mpr ⟨hp, hpo⟩
      exact List.length_pos.mpr (fun hnil => by simp [hnil] at this)
    have hnotall : allOk = false := by
      rw [h3]
      rw [List.all_eq_false]
      exact ⟨q, hq, by simp [hqo]⟩
    unfold classifyBooking
    rw [hnotall]
    rw [if_neg (by simpa using Nat.pos_iff_ne_zero.mp hcount)]
    simp
  · intro hall
    have hfil : steps.filter (fun p => isOkOutcome p.2) = [] := by
      rw [List.filter_eq_nil_iff]
      intro p hp
      simp [hall p hp]
    have hcount : (confirmedEntries appts).length = 0 := by
      rw [h2, hfil]
      rfl
    unfold classifyBooking
    rw [if_pos (by simpa using hcount)]

/-- Claim C2 witness: a two-step plan whose first remote call succeeds and
whose second fails, evaluated concretely — classified partial. -/
theorem claimC2_witness :
    runBookingLoop
      [(⟨"swedish massage", 0, 3600000, "A", none⟩, StepOutcome.ok (some "apt1") 3600000),
       (⟨"facial", 4500000, 8100000, "B", none⟩, StepOutcome.fail "upstream 500")] =
      ([⟨"swedish massage", ApptStatus.confirmed, none, some "apt1"⟩,
        ⟨"facial", ApptStatus.failed, some "upstream 500", none⟩], false) ∧
    classifyBooking
      [⟨"swedish massage", ApptStatus.confirmed, none, some "apt1"⟩,
       ⟨"facial", ApptStatus.failed, some "upstream 500", none⟩] false =
      BookingAggregate.partialSuccess :=
  ⟨by decide,
    (claimC2
      [(⟨"swedish massage", 0, 3600000, "A", none⟩, StepOutcome.ok (some "apt1") 3600000),
       (⟨"facial", 4500000, 8100000, "B", none⟩, StepOutcome.fail "upstream 500")]
      [⟨"swedish massage", ApptStatus.confirmed, none, some "apt1"⟩,
       ⟨"facial", ApptStatus.failed, some "upstream 500", none⟩] false
      (by decide)).2.2.2.1 (by decide) (by decide)⟩

lemma tryService_spec {db : String → Option SyncedCalendar}
    {calSlots : String → Nat → List PlannerSlot} {tp : String} {dk : Nat}
    {svc : String} {minStart : Nat} {step : PlannedStep} {nextMin : Nat} :
    ∀ cals, tryService db calSlots tp dk svc minStart cals = some (step, nextMin) →
    minStart ≤ step.startTime ∧
    step.endTime = step.startTime + (getCalendarTiming db step.calId).1 ∧
    nextMin = step.endTime + (getCalendarTiming db step.calId).2 := by
  intro cals
  induction cals with
  | nil => simp [tryService]
  | cons c rest ih =>
    simp only [tryService]
    cases hf : findSlotInCalendar tp minStart (calSlots c.calId dk) with
    | none => exact ih
    | some s =>
      intro h
      have hpred := List.find?_some hf
      have hle : minStart ≤ s.ms := of_decide_eq_true (Bool.and_elim_left hpred)
      simp only [Option.some.injEq, Prod.mk.injEq] at h
      obtain ⟨hstep, hmin⟩ := h
      subst hstep
      exact ⟨hle, rfl, hmin.symm⟩

lemma tryDate_spec {db : String → Option SyncedCalendar}
    {calSlots : String → Nat → List PlannerSlot}
    {serviceCals : String → List ServiceCal} {tp : String} {dk : Nat} :
    ∀ (services : List String) (minStart : Nat) (plan : List PlannedStep),
    tryDate db calSlots serviceCals tp dk services minStart = some plan →
    plan.length = services.length ∧
    (∀ st ∈ plan, minStart ≤ st.startTime) ∧
    List.Chain' (fun a b =>
      a.endTime + (getCalendarTiming db a.calId).2 ≤ b.startTime) plan := by
  intro services
  induction services with
  | nil =>
    intro minStart plan h
    simp [tryDate] at h
    subst h
    simp
  | cons svc rest ih =>
    intro minStart plan h
    simp only [tryDate] at h
    cases hsvc : tryService db calSlots tp dk svc minStart (serviceCals svc) with
    | none => simp [hsvc] at h
    | some sn =>
      obtain ⟨step, nextMin⟩ := sn
      rw [hsvc] at h
      replace h : (match tryDate db calSlots serviceCals tp dk rest nextMin with
          | none => none
          | some planRest => some (step :: planRest)) = some plan := h
      cases hrest : tryDate db calSlots serviceCals tp dk rest nextMin with
      | none =>
        rw [hrest] at h
        exact Option.noConfusion h
      | some planRest =>
        rw [hrest] at h
        replace h : some (step :: planRest) = some plan := h
        injection h with h
        subst h
        obtain ⟨hle, hend, hnext⟩ := tryService_spec (serviceCals svc) hsvc
        obtain ⟨ihlen, ihlb, ihchain⟩ := ih nextMin planRest hrest
        refine ⟨by simp [ihlen], ?_, ?_⟩
        · intro st hst
          rcases List.mem_cons.mp hst with rfl | hst
          · exact hle
          · calc minStart ≤ step.startTime := hle
              _ ≤ step.endTime := by rw [hend]; omega
              _ ≤ nextMin := by rw [hnext]; omega
              _ ≤ st.startTime := ihlb st hst
        · refine List.Chain'.cons' ihchain ?_
          intro y hy
          have hmem : y ∈ planRest := List.mem_of_mem_head? hy
          have := ihlb y hmem
          omega

lemma findPackageDay_spec {db : String → Option SyncedCalendar}
    {calSlots : String → Nat → List PlannerSlot}
    {serviceCals : String → List ServiceCal} {tp : String}
    {services : List String} {npb : Nat} {dayStartMs : Nat → Nat} :
    ∀ (dates : List Nat) (budget : Nat) (d : Nat) (plan : List PlannedStep),
    (d, plan) ∈ findPackageDay db calSlots serviceCals tp services npb dayStartMs
      dates budget →
    plan.length = services.length ∧
    List.Chain' (fun a b =>
      a.endTime + (getCalendarTiming db a.calId).2 ≤ b.startTime) plan := by
  intro dates
  induction dates with
  | nil =>
    intro budget d plan h
    simp [findPackageDay] at h
  | cons d0 ds ih =>
    intro budget d plan h
    match budget with
    | 0 => simp [findPackageDay] at h
    | budget + 1 =>
      simp only [findPackageDay] at h
      cases htry : tryDate db calSlots serviceCals tp d0 services
          (max npb (dayStartMs d0)) with
      | some plan0 =>
        rw [htry] at h
        replace h : (d, plan) ∈ (d0, plan0) :: findPackageDay db calSlots
            serviceCals tp services npb dayStartMs ds budget := h
        rcases List.mem_cons.mp h with heq | hmem
        · rw [Prod.mk.injEq] at heq
          obtain ⟨h1, h2⟩ := heq
          subst h2
          obtain ⟨hlen, hlb, hchain⟩ :=
            tryDate_spec services (max npb (dayStartMs d0)) plan htry
          exact ⟨hlen, hchain⟩
        · exact ih budget d plan hmem
      | none =>
        rw [htry] at h
        replace h : (d, plan) ∈ findPackageDay db calSlots serviceCals tp services
            npb dayStartMs ds (budget + 1) := h
        exact ih (budget + 1) d plan h

/-- Claim C1: every package plan produced by the package day-fit planner is
buffer-chained — each step after the first starts no earlier than the
previous step's end time plus the buffer of the previous step's calendar
(getCalendarTiming, with its 60-minute duration and 15-minute buffer
defaults). -/
theorem claimC1 : ∀ (db : String → Option SyncedCalendar)
    (calSlots : String → Nat → List PlannerSlot)
    (serviceCals : String → List ServiceCal) (tp : String)
    (services : List String) (npb : Nat) (dayStartMs : Nat → Nat)
    (dates : List Nat) (budget : Nat) (d : Nat) (plan : List PlannedStep),
    (d, plan) ∈ findPackageDay db calSlots serviceCals tp services npb
      dayStartMs dates budget →
    ∀ (i : Nat) (h1 : i < plan.length) (h2 : i + 1 < plan.length),
      (plan.get ⟨i, h1⟩).endTime +
        (getCalendarTiming db (plan.get ⟨i, h1⟩).calId).2 ≤
      (plan.get ⟨i + 1, h2⟩).startTime := by
  intro db calSlots serviceCals tp services npb dayStartMs dates budget d plan hmem
  intro i h1 h2
  obtain ⟨hlen, hchain⟩ := findPackageDay_spec dates budget d plan hmem
  have := List.chain'_iff_get.mp hchain i (by omega)
  exact this

/-- Claim C1 witness: a concrete two-service package over explicit slot
data; the produced plan's second step starts exactly at the first step's
end plus the 15-minute default buffer. -/
theorem claimC1_witness :
    ((0, [⟨"svc1", 1, 3600001, "A", none⟩, ⟨"svc2", 4500001, 8100001, "B", none⟩]) ∈
      findPackageDay (fun _ => none)
        (fun c d =>
          if c == "A" && d == 0 then [⟨1, 9⟩]
          else if c == "B" && d == 0 then [⟨4500001, 10⟩] else [])
        (fun s => if s == "svc1" then [⟨"A", none⟩] else [⟨"B", none⟩])
        "any" ["svc1", "svc2"] 0 (fun _ => 0) [0] 1) ∧
    (([⟨"svc1", 1, 3600001, "A", none⟩, ⟨"svc2", 4500001, 8100001, "B", none⟩] :
        List PlannedStep).get ⟨0, by decide⟩).endTime +
      (getCalendarTiming (fun _ => none)
        (([⟨"svc1", 1, 3600001, "A", none⟩,
           ⟨"svc2", 4500001, 8100001, "B", none⟩] :
          List PlannedStep).get ⟨0, by decide⟩).calId).2 ≤
    (([⟨"svc1", 1, 3600001, "A", none⟩, ⟨"svc2", 4500001, 8100001, "B", none⟩] :
        List PlannedStep).get ⟨1, by decide⟩).startTime :=
  ⟨by decide,
    claimC1 (fun _ => none)
      (fun c d =>
        if c == "A" && d == 0 then [⟨1, 9⟩]
        else if c == "B" && d == 0 then [⟨4500001, 10⟩] else [])
      (fun s => if s == "svc1" then [⟨"A", none⟩] else [⟨"B", none⟩])
      "any" ["svc1", "svc2"] 0 (fun _ => 0) [0] 1 0
      [⟨"svc1", 1, 3600001, "A", none⟩, ⟨"svc2", 4500001, 8100001, "B", none⟩]
      (by decide) 0 (by decide) (by decide)⟩

lemma perm_insertByKey {α : Type} (key : α → Nat) (a : α) :
    ∀ l : List α, (insertByKey key a l).Perm (a :: l) := by
  intro l
  induction l with
  | nil => exact List.Perm.refl _
  | cons b t ih =>
    unfold insertByKey
    split
    · exact List.Perm.refl _
    · exact (ih.cons b).trans (List.Perm.swap a b t)

lemma perm_sortByKey {α : Type} (key : α → Nat) :
    ∀ l : List α, (sortByKey key l).Perm l := by
  intro l
  induction l with
  | nil => exact List.Perm.refl _
  | cons a t ih =>
    exact (perm_insertByKey key a (sortByKey key t)).trans (ih.cons a)

lemma mem_sortByKey {α : Type} {key : α → Nat} {l : List α} {x : α} :
    x ∈ sortByKey key l ↔ x ∈ l :=
  (perm_sortByKey key l).mem_iff

lemma pairwise_insertByKey {α : Type} {key : α → Nat} {a : α} :
    ∀ {l : List α}, l.Pairwise (fun x y => key x ≤ key y) →
    (insertByKey key a l).Pairwise (fun x y => key x ≤ key y) := by
  intro l
  induction l with
  | nil => intro _; simp [insertByKey]
  | cons b t ih =>
    intro h
    rw [List.pairwise_cons] at h
    obtain ⟨hb, ht⟩ := h
    unfold insertByKey
    split
    · rename_i hle
      refine List.Pairwise.cons ?_ (List.Pairwise.cons hb ht)
      intro x hx
      rcases List.mem_cons.mp hx with rfl | hx
      · exact hle
      · exact Nat.le_trans hle (hb x hx)
    · rename_i hgt
      refine List.Pairwise.cons ?_ (ih ht)
      intro x hx
      rcases List.mem_cons.mp ((perm_insertByKey key a t).mem_iff.mp hx) with rfl | hx2
      · omega
      · exact hb x hx2

lemma pairwise_sortByKey {α : Type} (key : α → Nat) :
    ∀ l : List α, (sortByKey key l).Pairwise (fun x y => key x ≤ key y) := by
  intro l
  induction l with
  | nil => simp [sortByKey]
  | cons a t ih => exact pairwise_insertByKey ih

lemma mem_applyTimeFilter {tf : Option (Slot → Bool)} {slots : List Slot} {s : Slot}
    (h : s ∈ applyTimeFilter tf slots) : s ∈ slots := by
  cases tf with
  | none => exact h
  | some f => exact List.mem_of_mem_filter h

lemma lookupDay_keyMap_mem {keys : List Nat} {g : Nat → List Slot} {d : Nat} {s : Slot} :
    s ∈ lookupDay (keys.map (fun k => (k, g k))) d → s ∈ g d := by
  unfold lookupDay
  cases hf : (keys.map (fun k => (k, g k))).find? (fun p => p.1 == d) with
  | none => exact fun h => absurd h (List.not_mem_nil s)
  | some p =>
    intro hs
    have hmem := List.mem_of_find?_eq_some hf
    have hpred := List.find?_some hf
    obtain ⟨k, hk, rfl⟩ := List.mem_map.mp hmem
    have hkd : k = d := by simpa using hpred
    subst hkd
    exact hs

lemma mem_lookupDay_mergeAvailability {maps : List Availability} {d : Nat} {s : Slot}
    (hs : s ∈ lookupDay (mergeAvailability maps) d) : ∃ m ∈ maps, s ∈ lookupDay m d := by
  have hs2 : s ∈ sortByKey (fun s => s.ms)
      ((maps.map (fun m => lookupDay m d)).flatten) := lookupDay_keyMap_mem hs
  rw [mem_sortByKey] at hs2
  rw [List.mem_flatten] at hs2
  obtain ⟨l, hl, hsl⟩ := hs2
  obtain ⟨m, hm, rfl⟩ := List.mem_map.mp hl
  exact ⟨m, hm, hsl⟩

lemma lookupDay_fetch {minMs : Nat} {raw : Availability} {d : Nat} {s : Slot} :
    s ∈ lookupDay (fetchSlotsForCalendar minMs raw) d → minMs ≤ s.ms := by
  unfold lookupDay fetchSlotsForCalendar
  cases hf : (((raw.map (fun p =>
      (p.1, p.2.filter (fun s => decide (minMs ≤ s.ms))))).filter
      (fun p => !p.2.isEmpty)).find? (fun p => p.1 == d)) with
  | none => exact fun h => absurd h (List.not_mem_nil s)
  | some p =>
    intro hs
    have hmem := List.mem_of_find?_eq_some hf
    have hmem2 := List.mem_of_mem_filter hmem
    obtain ⟨q, hq, rfl⟩ := List.mem_map.mp hmem2
    exact of_decide_eq_true (List.mem_filter.mp hs).2

lemma onePerDay_mem {tf : Option (Slot → Bool)} {avail : Availability} :
    ∀ (dates : List Nat) (budget : Nat) (r : ResultSlot),
    r ∈ onePerDay tf avail dates budget → r.slot ∈ lookupDay avail r.date := by
  intro dates
  induction dates with
  | nil => intro budget r h; simp [onePerDay] at h
  | cons d ds ih =>
    intro budget r h
    match budget with
    | 0 => simp [onePerDay] at h
    | b + 1 =>
      simp only [onePerDay] at h
      cases hfl : applyTimeFilter tf (lookupDay avail d) with
      | nil =>
        rw [hfl] at h
        replace h : r ∈ onePerDay tf avail ds (b + 1) := h
        exact ih (b + 1) r h
      | cons s rest =>
        rw [hfl] at h
        replace h : r ∈ (⟨d, s⟩ : ResultSlot) :: onePerDay tf avail ds b := h
        rcases List.mem_cons.mp h with rfl | hmem
        · have hsmem : s ∈ applyTimeFilter tf (lookupDay avail d) := by
            rw [hfl]; exact List.mem_cons_self s rest
          exact mem_applyTimeFilter hsmem
        · exact ih b r hmem

lemma onePerDay_length {tf : Option (Slot → Bool)} {avail : Availability} :
    ∀ (dates : List Nat) (budget : Nat),
    (onePerDay tf avail dates budget).length ≤ budget := by
  intro dates
  induction dates with
  | nil => intro budget; simp [onePerDay]
  | cons d ds ih =>
    intro budget
    match budget with
    | 0 => simp [onePerDay]
    | b + 1 =>
      simp only [onePerDay]
      cases hfl : applyTimeFilter tf (lookupDay avail d) with
      | nil => exact ih (b + 1)
      | cons s rest =>
        have := ih b
        simp only [List.length_cons]
        omega

lemma onePerDay_dates_sublist {tf : Option (Slot → Bool)} {avail : Availability} :
    ∀ (dates : List Nat) (budget : Nat),
    ((onePerDay tf avail dates budget).map (fun r => r.date)).Sublist dates := by
  intro dates
  induction dates with
  | nil => intro budget; simp [onePerDay]
  | cons d ds ih =>
    intro budget
    match budget with
    | 0 => simp [onePerDay]
    | b + 1 =>
      simp only [onePerDay]
      cases hfl : applyTimeFilter tf (lookupDay avail d) with
      | nil => exact (ih (b + 1)).cons d
      | cons s rest =>
        simp only [List.map_cons]
        exact (ih b).cons₂ d

lemma mem_allMatchingSlots {tf : Option (Slot → Bool)} {avail : Availability}
    {dates : List Nat} {r : ResultSlot} (h : r ∈ allMatchingSlots tf avail dates) :
    r.slot ∈ lookupDay avail r.date := by
  unfold allMatchingSlots at h
  rw [List.mem_flatten] at h
  obtain ⟨l, hl, hrl⟩ := h
  obtain ⟨d, hd, rfl⟩ := List.mem_map.mp hl
  obtain ⟨s, hs, rfl⟩ := List.mem_map.mp hrl
  exact mem_applyTimeFilter hs

lemma collectSlots_mem {df : Option (Nat → Bool)} {tf : Option (Slot → Bool)}
    {tm : Option Nat} {avail : Availability} {r : ResultSlot}
    (h : r ∈ collectSlots df tf tm avail) : r.slot ∈ lookupDay avail r.date := by
  cases tm with
  | none => exact onePerDay_mem (collectDates df avail) 3 r h
  | some t =>
    have h1 := List.mem_of_mem_take h
    rw [mem_sortByKey] at h1
    exact mem_allMatchingSlots h1

lemma collectSlots_length {df : Option (Nat → Bool)} {tf : Option (Slot → Bool)}
    {tm : Option Nat} {avail : Availability} :
    (collectSlots df tf tm avail).length ≤ (if tm.isSome then 5 else 3) := by
  cases tm with
  | none => exact onePerDay_length (collectDates df avail) 3
  | some t =>
    simp only [collectSlots, Option.isSome_some, if_pos]
    calc (List.take 5 _).length ≤ 5 := by
          rw [List.length_take]; omega

lemma keys_mergeAvailability (maps : List Availability) :
    (mergeAvailability maps).map Prod.fst =
      ((maps.map (fun m => m.map Prod.fst)).flatten).dedup := by
  simp [mergeAvailability, Function.comp_def]

lemma collectDates_nodup {df : Option (Nat → Bool)} {avail : Availability}
    (hkeys : (avail.map Prod.fst).Nodup) : (collectDates df avail).Nodup := by
  have hperm : (sortByKey (fun d => d) (avail.map Prod.fst)).Nodup :=
    (perm_sortByKey (fun d => d) (avail.map Prod.fst)).symm.nodup hkeys
  cases df with
  | none => exact hperm
  | some f => exact hperm.filter f

lemma collectSlots_dates_nodup {df : Option (Nat → Bool)} {tf : Option (Slot → Bool)}
    {avail : Availability} (hkeys : (avail.map Prod.fst).Nodup) :
    ((collectSlots df tf none avail).map (fun r => r.date)).Nodup :=
  (onePerDay_dates_sublist (collectDates df avail) 3).nodup (collectDates_nodup hkeys)

lemma collectSlots_sorted {df : Option (Nat → Bool)} {tf : Option (Slot → Bool)}
    {avail : Availability} (t : Nat) :
    (collectSlots df tf (some t) avail).Pairwise
      (fun a b => proximityKey t a ≤ proximityKey t b) := by
  have hsorted := pairwise_sortByKey (proximityKey t)
    (allMatchingSlots tf avail (collectDates df avail))
  exact hsorted.sublist (List.take_sublist 5 _)

lemma checkAvailabilitySearch_cases (df : Option (Nat → Bool))
    (tf : Option (Slot → Bool)) (tm : Option Nat) (minMs : Nat)
    (raw : Nat → List Availability) :
    checkAvailabilitySearch df tf tm minMs raw = runWindow df tf tm minMs (raw 7) ∨
    checkAvailabilitySearch df tf tm minMs raw = runWindow df tf tm minMs (raw 14) ∨
    checkAvailabilitySearch df tf tm minMs raw = runWindow df tf tm minMs (raw 30) := by
  simp only [checkAvailabilitySearch]
  by_cases h7 : (runWindow df tf tm minMs (raw 7)).isEmpty = true
  · rw [if_pos h7]
    by_cases h14 : (runWindow df tf tm minMs (raw 14)).isEmpty = true
    · rw [if_pos h14]
      exact Or.inr (Or.inr rfl)
    · rw [if_neg h14]
      exact Or.inr (Or.inl rfl)
  · rw [if_neg h7]
    exact Or.inl rfl

/-- Claim C3: every slot returned by the check-availability search starts
at or after now plus the 15-minute buffer (now taken in the calendar's
timezone, the scale all the model's timestamps live on); the bound is
enforced by the fetch filter, before time-of-day filtering, ranking and
capping in collectSlots. -/
theorem claimC3 : ∀ (df : Option (Nat → Bool)) (tf : Option (Slot → Bool))
    (tm : Option Nat) (localNowMs : Nat) (startAfter : Option Nat)
    (raw : Nat → List Availability) (r : ResultSlot),
    r ∈ checkAvailabilitySearch df tf tm (minSlotTime localNowMs startAfter) raw →
    localNowMs + BUFFER_MS ≤ r.slot.ms := by
  intro df tf tm localNowMs startAfter raw r hmem
  have hmin : localNowMs + BUFFER_MS ≤ minSlotTime localNowMs startAfter := by
    cases startAfter with
    | none => exact Nat.le_refl _
    | some s => exact Nat.le_max_left _ _
  suffices h : ∀ raws : List Availability,
      r ∈ runWindow df tf tm (minSlotTime localNowMs startAfter) raws →
      localNowMs + BUFFER_MS ≤ r.slot.ms by
    rcases checkAvailabilitySearch_cases df tf tm
        (minSlotTime localNowMs startAfter) raw with hc | hc | hc <;>
      rw [hc] at hmem
    · exact h (raw 7) hmem
    · exact h (raw 14) hmem
    · exact h (raw 30) hmem
  intro raws hr
  have h1 := collectSlots_mem hr
  obtain ⟨m, hm, hs⟩ := mem_lookupDay_mergeAvailability h1
  obtain ⟨raw0, hraw0, rfl⟩ := List.mem_map.mp hm
  exact Nat.le_trans hmin (lookupDay_fetch hs)

/-- Claim C3 witness: a concrete search over one calendar whose lone slot
clears the bound; the returned slot is at least 15 minutes after now. -/
theorem claimC3_witness :
    ((⟨0, ⟨900000, some (9, 0), none, none, "A", none⟩⟩ : ResultSlot) ∈
      checkAvailabilitySearch none none none (minSlotTime 0 none)
        (fun _ => [[(0, [⟨900000, some (9, 0), none, none, "A", none⟩])]])) ∧
    0 + BUFFER_MS ≤ 900000 :=
  ⟨by decide,
    claimC3 none none none 0 none
      (fun _ => [[(0, [⟨900000, some (9, 0), none, none, "A", none⟩])]])
      ⟨0, ⟨900000, some (9, 0), none, none, "A", none⟩⟩ (by decide)⟩

/-- Claim C6: the search runs the full fetch-and-filter pipeline on a 7-day
window and keeps that result iff it is nonempty; only a fully empty 7-day
result triggers the 14-day re-run, whose nonempty result is kept; only two
empty runs trigger the 30-day run, whose result — possibly empty — is
final. -/
theorem claimC6 : ∀ (df : Option (Nat → Bool)) (tf : Option (Slot → Bool))
    (tm : Option Nat) (minMs : Nat) (raw : Nat → List Availability),
    (runWindow df tf tm minMs (raw 7) ≠ [] →
      checkAvailabilitySearch df tf tm minMs raw = runWindow df tf tm minMs (raw 7)) ∧
    (runWindow df tf tm minMs (raw 7) = [] → runWindow df tf tm minMs (raw 14) ≠ [] →
      checkAvailabilitySearch df tf tm minMs raw = runWindow df tf tm minMs (raw 14)) ∧
    (runWindow df tf tm minMs (raw 7) = [] → runWindow df tf tm minMs (raw 14) = [] →
      checkAvailabilitySearch df tf tm minMs raw = runWindow df tf tm minMs (raw 30)) := by
  intro df tf tm minMs raw
  refine ⟨?_, ?_, ?_⟩
  · intro h7
    simp only [checkAvailabilitySearch]
    rw [if_neg (by simpa [List.isEmpty_iff] using h7)]
  · intro h7 h14
    simp only [checkAvailabilitySearch]
    rw [if_pos (by simpa [List.isEmpty_iff] using h7)]
    rw [if_neg (by simpa [List.isEmpty_iff] using h14)]
  · intro h7 h14
    simp only [checkAvailabilitySearch]
    rw [if_pos (by simpa [List.isEmpty_iff] using h7)]
    rw [if_pos (by simpa [List.isEmpty_iff] using h14)]

/-- Claim C6 witness: with a 7-day window already containing a slot, the
search returns exactly the 7-day result. -/
theorem claimC6_witness :
    (runWindow none none none 0
        [[(0, [⟨5, some (9, 0), none, none, "A", none⟩])]] ≠ []) ∧
    checkAvailabilitySearch none none none 0
        (fun _ => [[(0, [⟨5, some (9, 0), none, none, "A", none⟩])]]) =
      runWindow none none none 0 [[(0, [⟨5, some (9, 0), none, none, "A", none⟩])]] :=
  ⟨by decide,
    (claimC6 none none none 0
      (fun _ => [[(0, [⟨5, some (9, 0), none, none, "A", none⟩])]])).1 (by decide)⟩

/-- Claim C7: the check-availability search never returns more than 3
result slots, or 5 when a requested time parsed; without a requested time
the result carries at most one slot per date (all result dates distinct);
with a requested time the results are ordered by absolute proximity to it. -/
theorem claimC7 : ∀ (df : Option (Nat → Bool)) (tf : Option (Slot → Bool))
    (tm : Option Nat) (minMs : Nat) (raw : Nat → List Availability),
    (checkAvailabilitySearch df tf tm minMs raw).length ≤
      (if tm.isSome then 5 else 3) ∧
    (tm = none →
      ((checkAvailabilitySearch df tf tm minMs raw).map (fun r => r.date)).Nodup) ∧
    (∀ t, tm = some t →
      (checkAvailabilitySearch df tf tm minMs raw).Pairwise
        (fun a b => proximityKey t a ≤ proximityKey t b)) := by
  intro df tf tm minMs raw
  have hbranch := checkAvailabilitySearch_cases df tf tm minMs raw
  have hkeys : ∀ raws : List Availability,
      ((mergeAvailability (raws.map (fetchSlotsForCalendar minMs))).map Prod.fst).Nodup := by
    intro raws
    rw [keys_mergeAvailability]
    exact List.nodup_dedup _
  refine ⟨?_, ?_, ?_⟩
  · rcases hbranch with h | h | h <;> rw [h] <;> exact collectSlots_length
  · rintro rfl
    rcases hbranch with h | h | h <;> rw [h] <;>
      exact collectSlots_dates_nodup (hkeys _)
  · rintro t rfl
    rcases hbranch with h | h | h <;> rw [h] <;> exact collectSlots_sorted t

/-- Claim C7 witness: without a requested time the concrete search result
has pairwise-distinct dates, via the general theorem. -/
theorem claimC7_witness :
    ((checkAvailabilitySearch none none none 0
      (fun _ => [[(0, [⟨5, some (9, 0), none, none, "A", none⟩]),
                  (1, [⟨7, some (10, 0), none, none, "A", none⟩])]])).map
      (fun r => r.date)).Nodup :=
  (claimC7 none none none 0
    (fun _ => [[(0, [⟨5, some (9, 0), none, none, "A", none⟩]),
                (1, [⟨7, some (10, 0), none, none, "A", none⟩])]])).2.1 rfl

end GhlCal
